import Mathlib

/-!
Shallow embedding of `src/download_structures.py` from the
Hauptman-Woodward crystallization database repository, together with
proofs about its fetch loop.

The embedded code is `fetchStructures` and its helpers (`chunks`, the
per-entry field extraction, the insert-or-replace step and the work-set
computation).  External collaborators that the repository imports from
`pdb_crystal_database` (the `Structure` record, `getStructure`) are not
under `src/`; they are modelled from the spec and marked as such.
Python-level effects are made explicit: the loop state is threaded
through folds, exceptions become `Option` (a `none` result is an
uncaught Python exception), and the remote HTTP client is an abstract
function parameter.
-/

namespace CrystalDB

/-- Scalar JSON values as they appear in the fields the script reads.
Numbers are modelled as rationals (the script only ever compares and
stores the parsed decimal values). -/
inductive Json where
  | null
  | str (s : String)
  | num (q : ℚ)
  deriving DecidableEq, Repr

/-- Numeric value of a list of decimal digit characters (most significant
first); used to model Python `float()` on decimal strings. -/
def digitsVal (cs : List Char) : ℕ :=
  cs.foldl (fun a c => a * 10 + (c.toNat - 48)) 0

/-- Models the Python builtin `float()` applied to a decimal string:
an optional sign, then digits with at most one decimal point and at
least one digit overall.  (Exponents, infinities and NaN do not occur in
the data the script handles and are not modelled.) -/
def parseFloat (s : String) : Option ℚ :=
  let num : List Char → Option ℚ := fun body =>
    match body.splitOn '.' with
    | [ip] =>
        if !ip.isEmpty && ip.all Char.isDigit then
          some (digitsVal ip : ℚ)
        else none
    | [ip, fp] =>
        if (!ip.isEmpty || !fp.isEmpty) && ip.all Char.isDigit && fp.all Char.isDigit then
          some ((digitsVal ip : ℚ) + (digitsVal fp : ℚ) / (10 : ℚ) ^ fp.length)
        else none
    | _ => none
  match s.toList with
  | '-' :: rest => (num rest).map (fun q => -q)
  | '+' :: rest => num rest
  | cs => num cs

/-- Python `float(v)` on a JSON scalar: numbers pass through, strings are
parsed, `None` (and anything else) raises, which the callers catch —
hence `Option`. -/
def pyFloat (v : Json) : Option ℚ :=
  match v with
  | Json.null => none
  | Json.str s => parseFloat s
  | Json.num q => some q

/-- One element of the `exptl_crystal_grow` list of a PDB entry, with the
fields the GraphQL query requests. `method` and `pdbx_details` are read
as strings (or null); `temp` and `pH` are fed to `float()` and so may be
any scalar. -/
structure CrystalGrow where
  method : Option String
  temp : Json
  pdbx_details : Option String
  pH : Json
  deriving DecidableEq, Repr

/-- The `rcsb_entry_info` object of an entry. -/
structure RcsbEntryInfo where
  resolution_combined : Option (List Json)
  deriving DecidableEq, Repr

/-- The `pubmed` object of an entry. -/
structure Pubmed where
  rcsb_pubmed_central_id : Option String
  deriving DecidableEq, Repr

/-- One entry of `response["data"]["entries"]`, as consumed by the loop
body of `fetchStructures`. -/
structure Entry where
  rcsb_id : String
  exptl_crystal_grow : Option (List CrystalGrow)
  rcsb_entry_info : Option RcsbEntryInfo
  pubmed : Option Pubmed
  deriving DecidableEq, Repr

/-- Modelled from the spec: the Metadata Record (`Structure` in the
missing `pdb_crystal_database` module) — identifier, optional
linked-publication id, optional details text, a list argument that the
script always passes as `[]`, optional pH, optional temperature,
optional method, the (always empty) sequence list, and optional
resolution, in the positional order of the constructor call at line 208
of `download_structures.py`. -/
structure Structure where
  pdbid : String
  pmcid : Option String
  details : Option String
  compounds : List String
  pH : Option ℚ
  temperature : Option ℚ
  method : Option String
  sequences : List String
  resolution : Option ℚ
  deriving DecidableEq, Repr

/-- Modelled from the spec: `getStructure` of the missing
`pdb_crystal_database` module — lookup-by-key in the record store,
returning the (first) record with the given identifier, or `None`. -/
def getStructure (structureList : List Structure) (pdbid : String) : Option Structure :=
  structureList.find? (fun s => s.pdbid == pdbid)

/-- Lines 210–213 of `download_structures.py`: if the pdb already has a
record in the list, `remove` it (Python `list.remove` drops the first
element equal to its argument), then append the new record. -/
def insertStructure (structureList : List Structure) (s : Structure) : List Structure :=
  match getStructure structureList s.pdbid with
  | some old => structureList.erase old ++ [s]
  | none => structureList ++ [s]

/-- `CHUNK_SIZE` from line 30. -/
def CHUNK_SIZE : ℕ := 1000

/-- Lines 33–36: `chunks(lst, n)` yields the slice `lst[i:i+n]` for each
`i` in `range(0, len(lst), n)` — the `⌈len(lst)/n⌉` indices
`0, n, 2n, …` (a Python slice `lst[i:i+n]` is `(lst.drop i).take n`).
For `n = 0` Python's `range` raises; the script only calls `chunks` with
the positive `CHUNK_SIZE`. -/
def chunks (lst : List α) (n : ℕ) : List (List α) :=
  (List.range' 0 ((lst.length + n - 1) / n) n).map (fun i => (lst.drop i).take n)

/-- The mutable locals of the batch loop of `fetchStructures`:
`structureList`, `pdbsWithoutDetails`, and the `resolution` variable
(which, because of the `resultion` typo at line 206, survives from one
entry to the next; `none` means not yet bound, so that using it raises
`NameError`). -/
structure LoopState where
  structureList : List Structure
  pdbsWithoutDetails : List String
  resolutionVar : Option ℚ
  deriving DecidableEq, Repr

/-- Lines 167–213: the body of `for entry in response["data"]["entries"]`.
`none` is an uncaught Python exception (IndexError on an empty
`exptl_crystal_grow` list, or NameError when the `resultion` typo leaves
`resolution` unbound at the construction site). -/
def processEntry (onlyDetails : Bool) (st : LoopState) (e : Entry) : Option LoopState :=
  let pdbid := e.rcsb_id
  match e.exptl_crystal_grow with
  | none => some { st with pdbsWithoutDetails := st.pdbsWithoutDetails ++ [pdbid] }
  | some grows =>
    match grows.head? with
    | none => none
    | some crystalEntry =>
      let details := crystalEntry.pdbx_details
      let excl :=
        if details.isNone then st.pdbsWithoutDetails ++ [pdbid] else st.pdbsWithoutDetails
      if details.isNone && onlyDetails then
        some { st with pdbsWithoutDetails := excl }
      else
        let pmcid := (e.pubmed.bind Pubmed.rcsb_pubmed_central_id).map (fun s => s.drop 3)
        let pH := pyFloat crystalEntry.pH
        let temperature := pyFloat crystalEntry.temp
        let method := crystalEntry.method
        let sequences : List String := []
        let resolutionNew :=
          ((e.rcsb_entry_info.bind RcsbEntryInfo.resolution_combined).bind List.head?).bind pyFloat
        -- On conversion failure the source assigns to the misspelled
        -- `resultion`, so `resolution` keeps its previous binding.
        let resolutionVar := match resolutionNew with
          | some q => some q
          | none => st.resolutionVar
        match resolutionVar with
        | none => none
        | some r =>
          some { structureList :=
                   insertStructure st.structureList
                     ⟨pdbid, pmcid, details, [], pH, temperature, method, sequences, some r⟩
                 pdbsWithoutDetails := excl
                 resolutionVar := some r }

/-- Folding `processEntry` over the entries of one response. -/
def processEntries (onlyDetails : Bool) (st : LoopState) : List Entry → Option LoopState
  | [] => some st
  | e :: rest => (processEntry onlyDetails st e).bind (fun st1 => processEntries onlyDetails st1 rest)

/-- Lines 148–220: the batch loop.  `remote` models `loadPdbs`:
`none` is a response without a top-level `"data"` field, which makes the
loop `continue` to the next chunk; `some entries` is
`response["data"]["entries"]`. -/
def runChunks (remote : List String → Option (List Entry)) (onlyDetails : Bool)
    (st : LoopState) : List (List String) → Option LoopState
  | [] => some st
  | c :: rest =>
    match remote c with
    | none => runChunks remote onlyDetails st rest
    | some entries =>
      (processEntries onlyDetails st entries).bind
        (fun st1 => runChunks remote onlyDetails st1 rest)

/-- Lines 134–139: the ignore list is the loaded exclusion list (when
`ignorePdbsWithoutDetails`) followed by the completed list (already `[]`
when `ignoreCompletedPdbs` is false). -/
def ignoredPdbList (pdbsWithoutDetails completedPdbList : List String)
    (ignorePdbsWithoutDetails : Bool) : List String :=
  (if ignorePdbsWithoutDetails then pdbsWithoutDetails else []) ++ completedPdbList

/-- Line 142: `pdbList = list(set(pdbList) - set(ignoredPdbList))`.
The set difference is a set; Python's iteration order over it is
unspecified, and we fix the canonical order that keeps the first
occurrence of each surviving identifier. -/
def workSetList (pdbList ignored : List String) : List String :=
  pdbList.dedup.filter (fun x => decide (x ∉ ignored))

/-- What `fetchStructures` leaves behind: the record store and the
exclusion list written at lines 271–272. -/
structure FetchResult where
  structureList : List Structure
  pdbsWithoutDetails : List String
  deriving DecidableEq, Repr

/-- The work set exactly as `fetchStructures` computes it at lines
125–142: the completed list is the store's identifiers only when
`ignoreCompletedPdbs` is set, and the set difference is taken against
the combined ignore list. -/
def fetchWorkSet (pdbList : List String) (initStructures : List Structure)
    (initWithoutDetails : List String)
    (ignorePdbsWithoutDetails ignoreCompletedPdbs : Bool) : List String :=
  workSetList pdbList
    (ignoredPdbList initWithoutDetails
      (if ignoreCompletedPdbs then initStructures.map Structure.pdbid else [])
      ignorePdbsWithoutDetails)

/-- Lines 101–274: `fetchStructures`.  The loaded stores are passed in
(`initStructures`, `initWithoutDetails`; a missing file loads as `[]`),
the HTTP client is abstract, and a `none` result is an uncaught Python
exception escaping the loop. -/
def fetchStructures (remote : List String → Option (List Entry)) (pdbList : List String)
    (initStructures : List Structure) (initWithoutDetails : List String)
    (onlyDetails ignorePdbsWithoutDetails ignoreCompletedPdbs : Bool) : Option FetchResult :=
  (runChunks remote onlyDetails ⟨initStructures, initWithoutDetails, none⟩
      (chunks (fetchWorkSet pdbList initStructures initWithoutDetails
          ignorePdbsWithoutDetails ignoreCompletedPdbs) CHUNK_SIZE)).map
    (fun st => ⟨st.structureList, st.pdbsWithoutDetails⟩)

/-- A remote with no batch-level failures and an unchanged, per-identifier
deterministic answer: each requested identifier contributes its entry
(if the catalog has one) to the response of its batch. -/
def remoteOf (f : String → Option Entry) : List String → Option (List Entry) :=
  fun c => some (c.filterMap f)

/-! Concrete fixtures used by the example-level theorems below. -/

/-- An entry whose `exptl_crystal_grow` is null. -/
def entryNoGrow : Entry := ⟨"1AAA", none, none, none⟩

/-- A full crystallization sub-record: method, temperature `"298"`,
non-null details, pH `"7.0"`. -/
def growFull : CrystalGrow :=
  ⟨some "Vapor Diffusion", Json.str "298", some "pH 7.0, PEG", Json.str "7.0"⟩

/-- A full entry for `"1BBB"` with resolution list `[1.8]` and no linked
publication. -/
def entryFull : Entry := ⟨"1BBB", some [growFull], some ⟨some [Json.num 1.8]⟩, none⟩

/-- An entry for `"2CCC"` that is complete except that its
`resolution_combined` is null, so `float()` on it raises. -/
def entryBadRes : Entry :=
  ⟨"2CCC", some [⟨some "m", Json.str "290", some "d", Json.str "6.5"⟩], some ⟨none⟩, none⟩

/-- An entry for `"3DDD"` whose linked-publication id `"AB1234"` does not
start with the `"PMC"` prefix. -/
def entryOddPmc : Entry :=
  ⟨"3DDD", some [growFull], some ⟨some [Json.num 2]⟩, some ⟨some "AB1234"⟩⟩

/-- The remote of the spec's worked example: one batch answering
`["1AAA", "1BBB"]` with the null-growth entry and the full entry. -/
def remoteExample : List String → Option (List Entry) :=
  fun c => if c = ["1AAA", "1BBB"] then some [entryNoGrow, entryFull] else none

/-- A remote answering `["1BBB", "2CCC"]` with the full entry followed by
the entry whose resolution conversion fails. -/
def remoteStaleRes : List String → Option (List Entry) :=
  fun c => if c = ["1BBB", "2CCC"] then some [entryFull, entryBadRes] else none

/-- A remote answering `["1AAA"]` with the null-growth entry. -/
def remoteNoGrow : List String → Option (List Entry) :=
  fun c => if c = ["1AAA"] then some [entryNoGrow] else none

/-- A remote answering `["3DDD"]` with the odd-publication-id entry. -/
def remoteOddPmc : List String → Option (List Entry) :=
  fun c => if c = ["3DDD"] then some [entryOddPmc] else none

/-- A bare stored record for `"1AAA"`. -/
def structA : Structure := ⟨"1AAA", none, none, [], none, none, none, [], none⟩

/-- A stored record for `"1BBB"`. -/
def structB : Structure := ⟨"1BBB", none, some "d", [], some 7, none, none, [], none⟩

/-- A fresh record for `"1AAA"` with different field values than
`structA`. -/
def structA2 : Structure :=
  ⟨"1AAA", some "99", some "new", [], none, some 300, none, [], some 2⟩

/-! ## Lemmas about `chunks` -/

/-- Mapping over a `range'` with any start is mapping the shifted
function over the `range'` starting at `0`. -/
theorem range'_map_shift {β : Type*} (g : ℕ → β) :
    ∀ (k s step : ℕ),
      (List.range' s k step).map g = (List.range' 0 k step).map (fun i => g (s + i))
  | 0, _, _ => rfl
  | k + 1, s, step => by
    rw [List.range'_succ, List.range'_succ, List.map_cons, List.map_cons,
      range'_map_shift g k (s + step) step,
      range'_map_shift (fun i => g (s + i)) k (0 + step) step]
    simp [Nat.add_assoc]

/-- `chunks` of the empty list is empty. -/
theorem chunks_nil {α : Type*} (n : ℕ) : chunks ([] : List α) n = [] := by
  have h : (n - 1) / n = 0 := by
    cases n with
    | zero => simp
    | succ k => exact Nat.div_eq_of_lt (by omega)
  simp [chunks, h]

/-- Unfolding equation for `chunks` on a non-empty list. -/
theorem chunks_cons {α : Type*} {lst : List α} {n : ℕ} (hne : lst ≠ []) (hn : n ≠ 0) :
    chunks lst n = lst.take n :: chunks (lst.drop n) n := by
  have hL : 0 < lst.length := List.length_pos_of_ne_nil hne
  have hn0 : 0 < n := Nat.pos_of_ne_zero hn
  have hk : (lst.length + n - 1) / n = (lst.length - 1) / n + 1 := by
    have h : lst.length + n - 1 = (lst.length - 1) + n := by omega
    rw [h, Nat.add_div_right _ hn0]
  have hk2 : ((lst.drop n).length + n - 1) / n = (lst.length - 1) / n := by
    rw [List.length_drop]
    rcases Nat.le_total lst.length n with h | h
    · have e1 : lst.length - n + n - 1 = n - 1 := by omega
      rw [e1, Nat.div_eq_of_lt (by omega), Nat.div_eq_of_lt (by omega)]
    · have e1 : lst.length - n + n - 1 = lst.length - 1 := by omega
      rw [e1]
  have he : (fun i => List.take n (List.drop i (List.drop n lst)))
      = fun i => List.take n (List.drop (n + i) lst) := by
    funext i
    simp [List.drop_drop]
  rw [chunks, chunks, hk, hk2, List.range'_succ, List.map_cons, List.drop_zero,
    Nat.zero_add, range'_map_shift (fun i => (lst.drop i).take n) ((lst.length - 1) / n) n n,
    he]

/-- The chunks of a list, concatenated, give back the list. -/
theorem chunks_flatten {α : Type*} (n : ℕ) (hn : n ≠ 0) (lst : List α) :
    (chunks lst n).flatten = lst := by
  by_cases hne : lst = []
  · subst hne
    rw [chunks_nil]
    rfl
  · rw [chunks_cons hne hn, List.flatten_cons, chunks_flatten n hn (lst.drop n),
      List.take_append_drop]
termination_by lst.length
decreasing_by
  have h1 : 0 < lst.length := List.length_pos_of_ne_nil hne
  simp only [List.length_drop]
  omega

/-- Elements of a chunk come from the chunked list. -/
theorem mem_of_mem_chunks {α : Type*} {lst : List α} {n : ℕ} (hn : n ≠ 0)
    {c : List α} (hc : c ∈ chunks lst n) {x : α} (hx : x ∈ c) : x ∈ lst := by
  have h := List.mem_flatten.mpr ⟨c, hc, hx⟩
  rwa [chunks_flatten n hn] at h

/-- Every chunk is non-empty and no longer than the chunk size. -/
theorem chunks_length_le {α : Type*} {lst : List α} {n : ℕ} (hn : n ≠ 0)
    {c : List α} (hc : c ∈ chunks lst n) : 0 < c.length ∧ c.length ≤ n := by
  simp only [chunks, List.mem_map] at hc
  obtain ⟨i, hi, rfl⟩ := hc
  rw [List.mem_range'] at hi
  obtain ⟨j, hj, rfl⟩ := hi
  have hn0 : 0 < n := Nat.pos_of_ne_zero hn
  have h1 : j + 1 ≤ (lst.length + n - 1) / n := hj
  have h2 : (j + 1) * n ≤ ((lst.length + n - 1) / n) * n :=
    Nat.mul_le_mul_right n h1
  have h3 : ((lst.length + n - 1) / n) * n ≤ lst.length + n - 1 :=
    Nat.div_mul_le_self _ n
  have h4 : (j + 1) * n = j * n + n := by ring
  have h5 : n * j < lst.length := by
    have h6 : j * n + n ≤ lst.length + n - 1 := by omega
    have h7 : n * j = j * n := Nat.mul_comm n j
    omega
  constructor
  · simp only [List.length_take, List.length_drop]
    omega
  · simp only [List.length_take]
    omega

/-- Every chunk except possibly the last has length exactly `n`. -/
theorem chunks_dropLast_length {α : Type*} (n : ℕ) (hn : n ≠ 0) (lst : List α) :
    ∀ c ∈ (chunks lst n).dropLast, c.length = n := by
  by_cases hne : lst = []
  · subst hne
    rw [chunks_nil]
    intro c hc
    simp at hc
  · rw [chunks_cons hne hn]
    cases hrest : chunks (lst.drop n) n with
    | nil =>
      intro c hc
      simp at hc
    | cons hd tl =>
      intro c hc
      rw [List.dropLast_cons₂] at hc
      rcases List.mem_cons.mp hc with rfl | hc2
      · have hdne : lst.drop n ≠ [] := by
          intro h
          rw [h, chunks_nil] at hrest
          exact (List.cons_ne_nil hd tl) hrest.symm
        have hlen : 0 < lst.length - n := by
          have h := List.length_pos_of_ne_nil hdne
          rwa [List.length_drop] at h
        rw [List.length_take]
        omega
      · have h := chunks_dropLast_length n hn (lst.drop n)
        rw [hrest] at h
        exact h c hc2
termination_by lst.length
decreasing_by
  have h1 : 0 < lst.length := List.length_pos_of_ne_nil hne
  simp only [List.length_drop]
  omega

/-! ## Lemmas about `insertStructure` -/

/-- Under the one-record-per-identifier invariant, inserting a record is:
drop the unique record carrying the same identifier (if any), keep every
other record in place, and append the new record. -/
theorem insertStructure_eq_filter (l : List Structure) (s : Structure)
    (hinv : (l.map Structure.pdbid).Nodup) :
    insertStructure l s = l.filter (fun t => t.pdbid != s.pdbid) ++ [s] := by
  induction l with
  | nil => rfl
  | cons a t ih =>
    rw [List.map_cons, List.nodup_cons] at hinv
    obtain ⟨ha, ht⟩ := hinv
    by_cases hps : a.pdbid = s.pdbid
    · have hfind : getStructure (a :: t) s.pdbid = some a := by
        simp [getStructure, List.find?_cons, hps]
      have hfilter : t.filter (fun x => x.pdbid != s.pdbid) = t := by
        rw [List.filter_eq_self]
        intro x hx
        simp only [bne_iff_ne, ne_eq, decide_eq_true_eq]
        intro hxs
        exact ha (by
          rw [hps, ← hxs]
          exact List.mem_map_of_mem Structure.pdbid hx)
      have herase : (a :: t).erase a = t := by
        simp
      simp [insertStructure, hfind, herase, hps, hfilter]
    · have hfind : getStructure (a :: t) s.pdbid = getStructure t s.pdbid := by
        simp [getStructure, List.find?_cons, hps]
      cases hft : getStructure t s.pdbid with
      | none =>
        have hfilter : t.filter (fun x => x.pdbid != s.pdbid) = t := by
          rw [List.filter_eq_self]
          intro x hx
          simp only [bne_iff_ne, ne_eq, decide_eq_true_eq]
          have := List.find?_eq_none.mp hft x hx
          simpa using this
        simp [insertStructure, hfind, hft, hps, hfilter]
      | some old =>
        have hold : old.pdbid = s.pdbid := by
          have := List.find?_some hft
          simpa using this
        have hao : a ≠ old := by
          intro hao
          rw [hao, hold] at hps
          exact hps rfl
        have herase : (a :: t).erase old = a :: t.erase old :=
          List.erase_cons_tail (by simpa using hao)
        have hit : t.erase old ++ [s] = t.filter (fun x => x.pdbid != s.pdbid) ++ [s] := by
          have h1 : insertStructure t s = t.erase old ++ [s] := by
            simp [insertStructure, hft]
          rw [← h1, ih ht]
        have hts : t.erase old = t.filter (fun x => x.pdbid != s.pdbid) :=
          List.append_cancel_right hit
        simp [insertStructure, hfind, hft, herase, hts, hps]

/-- Inserting preserves the one-record-per-identifier invariant. -/
theorem insertStructure_ids_nodup (l : List Structure) (s : Structure)
    (hinv : (l.map Structure.pdbid).Nodup) :
    ((insertStructure l s).map Structure.pdbid).Nodup := by
  rw [insertStructure_eq_filter l s hinv, List.map_append]
  apply List.Nodup.append
  · exact ((List.filter_sublist l).map Structure.pdbid).nodup hinv
  · simp
  · intro x hx1 hx2
    simp only [List.map_cons, List.map_nil, List.mem_singleton] at hx2
    obtain ⟨u, hu, rfl⟩ := List.mem_map.mp hx1
    have := (List.mem_filter.mp hu).2
    simp only [bne_iff_ne, ne_eq, decide_eq_true_eq] at this
    exact this hx2

/-- Every record of the store after an insert is either the inserted
record or one of the old records. -/
theorem mem_of_mem_insertStructure {l : List Structure} {s t : Structure}
    (h : t ∈ insertStructure l s) : t = s ∨ t ∈ l := by
  unfold insertStructure at h
  cases hfind : getStructure l s.pdbid with
  | none =>
    rw [hfind] at h
    rcases List.mem_append.mp h with h1 | h1
    · exact Or.inr h1
    · exact Or.inl (by simpa using h1)
  | some old =>
    rw [hfind] at h
    rcases List.mem_append.mp h with h1 | h1
    · exact Or.inr (List.erase_subset _ _ h1)
    · exact Or.inl (by simpa using h1)

/-- Identifier membership in the store after an insert. -/
theorem mem_ids_insertStructure {l : List Structure} {s : Structure} {x : String} :
    x ∈ (insertStructure l s).map Structure.pdbid ↔
      x ∈ l.map Structure.pdbid ∨ x = s.pdbid := by
  constructor
  · intro h
    obtain ⟨t, ht, rfl⟩ := List.mem_map.mp h
    rcases mem_of_mem_insertStructure ht with rfl | ht2
    · exact Or.inr rfl
    · exact Or.inl (List.mem_map_of_mem Structure.pdbid ht2)
  · intro h
    unfold insertStructure
    cases hfind : getStructure l s.pdbid with
    | none =>
      rcases h with h | rfl
      · rw [List.map_append]
        exact List.mem_append_left _ h
      · rw [List.map_append]
        exact List.mem_append_right _ (by simp)
    | some old =>
      have hold : old.pdbid = s.pdbid := by
        have := List.find?_some hfind
        simpa using this
      rcases h with h | rfl
      · obtain ⟨t, ht, rfl⟩ := List.mem_map.mp h
        by_cases hto : t = old
        · subst hto
          rw [List.map_append, hold]
          exact List.mem_append_right _ (by simp)
        · rw [List.map_append]
          exact List.mem_append_left _
            (List.mem_map_of_mem Structure.pdbid ((List.mem_erase_of_ne hto).mpr ht))
      · rw [List.map_append]
        exact List.mem_append_right _ (by simp)

/-! ## Lemmas about the work set -/

/-- Membership in the computed work list. -/
theorem mem_workSetList {pdbList ignored : List String} {x : String} :
    x ∈ workSetList pdbList ignored ↔ x ∈ pdbList ∧ x ∉ ignored := by
  simp [workSetList, List.mem_filter, List.mem_dedup]

/-- The computed work list never repeats an identifier. -/
theorem workSetList_nodup (pdbList ignored : List String) :
    (workSetList pdbList ignored).Nodup :=
  (List.nodup_dedup pdbList).filter _

/-! ## Lemmas about the loop body -/

/-- The new record lands at the end of the store. -/
theorem insertStructure_getLast (l : List Structure) (s : Structure) :
    (insertStructure l s).getLast? = some s := by
  unfold insertStructure
  cases getStructure l s.pdbid <;> simp

/-- Exhaustive description of one successful step of the entry loop:
either nothing is built and the entry's identifier is appended to the
exclusion list, or a record carrying the entry's identifier is
insert-or-replaced into the store and the exclusion list either stays
put or gets the identifier appended. -/
theorem processEntry_effect {onlyDetails : Bool} {st st' : LoopState} {e : Entry}
    (h : processEntry onlyDetails st e = some st') :
    (st'.structureList = st.structureList ∧
       st'.pdbsWithoutDetails = st.pdbsWithoutDetails ++ [e.rcsb_id]) ∨
    (∃ s : Structure, s.pdbid = e.rcsb_id ∧
       st'.structureList = insertStructure st.structureList s ∧
       (st'.pdbsWithoutDetails = st.pdbsWithoutDetails ∨
        st'.pdbsWithoutDetails = st.pdbsWithoutDetails ++ [e.rcsb_id])) := by
  unfold processEntry at h
  cases hgrow : e.exptl_crystal_grow with
  | none =>
    simp only [hgrow] at h
    injection h with h
    subst h
    exact Or.inl ⟨rfl, rfl⟩
  | some grows =>
    simp only [hgrow] at h
    cases hhd : grows.head? with
    | none =>
      simp only [hhd] at h
      exact absurd h (by simp)
    | some g =>
      simp only [hhd] at h
      by_cases hdet : g.pdbx_details.isNone = true
      · by_cases hd : onlyDetails = true
        · simp only [hdet, hd, Bool.and_self, if_true] at h
          injection h with h
          subst h
          exact Or.inl ⟨rfl, rfl⟩
        · rw [Bool.not_eq_true] at hd
          simp only [hdet, hd, Bool.and_false, Bool.false_eq_true, if_false] at h
          cases hres :
              ((e.rcsb_entry_info.bind RcsbEntryInfo.resolution_combined).bind
                List.head?).bind pyFloat with
          | some q =>
            simp only [hres] at h
            injection h with h
            subst h
            exact Or.inr ⟨_, rfl, rfl, Or.inr rfl⟩
          | none =>
            simp only [hres] at h
            cases hrv : st.resolutionVar with
            | none =>
              simp only [hrv] at h
              exact absurd h (by simp)
            | some q =>
              simp only [hrv] at h
              injection h with h
              subst h
              exact Or.inr ⟨_, rfl, rfl, Or.inr rfl⟩
      · rw [Bool.not_eq_true] at hdet
        simp only [hdet, Bool.false_and, Bool.false_eq_true, if_false] at h
        cases hres :
            ((e.rcsb_entry_info.bind RcsbEntryInfo.resolution_combined).bind
              List.head?).bind pyFloat with
        | some q =>
          simp only [hres] at h
          injection h with h
          subst h
          exact Or.inr ⟨_, rfl, rfl, Or.inl rfl⟩
        | none =>
          simp only [hres] at h
          cases hrv : st.resolutionVar with
          | none =>
            simp only [hrv] at h
            exact absurd h (by simp)
          | some q =>
            simp only [hrv] at h
            injection h with h
            subst h
            exact Or.inr ⟨_, rfl, rfl, Or.inl rfl⟩

/-- After a successful entry step, the entry's identifier is recorded:
either as a store key or in the exclusion list. -/
theorem processEntry_coverage {onlyDetails : Bool} {st st' : LoopState} {e : Entry}
    (h : processEntry onlyDetails st e = some st') :
    e.rcsb_id ∈ st'.structureList.map Structure.pdbid ∨
      e.rcsb_id ∈ st'.pdbsWithoutDetails := by
  rcases processEntry_effect h with ⟨_, hexcl⟩ | ⟨s, hs, hlist, _⟩
  · rw [hexcl]
    exact Or.inr (by simp)
  · rw [hlist]
    exact Or.inl (mem_ids_insertStructure.mpr (Or.inr hs.symm))

/-- Cumulative effect of one batch's entry loop: exclusions grow only by
identifiers of the batch's entries, old exclusions survive, every stored
record is an old record or carries an identifier of the batch's entries,
and old store keys survive. -/
theorem processEntries_effect {onlyDetails : Bool} :
    ∀ {es : List Entry} {st st' : LoopState},
      processEntries onlyDetails st es = some st' →
      (∀ x ∈ st'.pdbsWithoutDetails,
          x ∈ st.pdbsWithoutDetails ∨ ∃ e ∈ es, x = e.rcsb_id) ∧
      (∀ x ∈ st.pdbsWithoutDetails, x ∈ st'.pdbsWithoutDetails) ∧
      (∀ t ∈ st'.structureList,
          t ∈ st.structureList ∨ ∃ e ∈ es, t.pdbid = e.rcsb_id) ∧
      (∀ x ∈ st.structureList.map Structure.pdbid,
          x ∈ st'.structureList.map Structure.pdbid)
  | [], st, st', h => by
    injection h with h
    subst h
    exact ⟨fun x hx => Or.inl hx, fun x hx => hx, fun t ht => Or.inl ht, fun x hx => hx⟩
  | e :: rest, st, st', h => by
    rw [processEntries, Option.bind_eq_some] at h
    obtain ⟨st1, h1, h2⟩ := h
    obtain ⟨ih1, ih2, ih3, ih4⟩ := processEntries_effect h2
    have heff := processEntry_effect h1
    refine ⟨?_, ?_, ?_, ?_⟩
    · intro x hx
      rcases ih1 x hx with hx1 | ⟨e', he', hxe⟩
      · rcases heff with ⟨_, hexcl⟩ | ⟨s, _, _, hexcl | hexcl⟩
        · rw [hexcl] at hx1
          rcases List.mem_append.mp hx1 with hx2 | hx2
          · exact Or.inl hx2
          · exact Or.inr ⟨e, by simp, by simpa using hx2⟩
        · rw [hexcl] at hx1
          exact Or.inl hx1
        · rw [hexcl] at hx1
          rcases List.mem_append.mp hx1 with hx2 | hx2
          · exact Or.inl hx2
          · exact Or.inr ⟨e, by simp, by simpa using hx2⟩
      · exact Or.inr ⟨e', by simp [he'], hxe⟩
    · intro x hx
      apply ih2
      rcases heff with ⟨_, hexcl⟩ | ⟨s, _, _, hexcl | hexcl⟩ <;> rw [hexcl]
      · exact List.mem_append_left _ hx
      · exact hx
      · exact List.mem_append_left _ hx
    · intro t ht
      rcases ih3 t ht with ht1 | ⟨e', he', hte⟩
      · rcases heff with ⟨hlist, _⟩ | ⟨s, hs, hlist, _⟩
        · rw [hlist] at ht1
          exact Or.inl ht1
        · rw [hlist] at ht1
          rcases mem_of_mem_insertStructure ht1 with rfl | ht2
          · exact Or.inr ⟨e, by simp, hs⟩
          · exact Or.inl ht2
      · exact Or.inr ⟨e', by simp [he'], hte⟩
    · intro x hx
      apply ih4
      rcases heff with ⟨hlist, _⟩ | ⟨s, _, hlist, _⟩ <;> rw [hlist]
      · exact hx
      · exact mem_ids_insertStructure.mpr (Or.inl hx)

/-- After a successful batch, every entry of the batch has its
identifier recorded in the store or in the exclusion list. -/
theorem processEntries_coverage {onlyDetails : Bool} :
    ∀ {es : List Entry} {st st' : LoopState},
      processEntries onlyDetails st es = some st' →
      ∀ e ∈ es, e.rcsb_id ∈ st'.structureList.map Structure.pdbid ∨
        e.rcsb_id ∈ st'.pdbsWithoutDetails
  | [], _, _, _ => by
    intro e he
    simp at he
  | e0 :: rest, st, st', h => by
    rw [processEntries, Option.bind_eq_some] at h
    obtain ⟨st1, h1, h2⟩ := h
    intro e he
    rcases List.mem_cons.mp he with rfl | he2
    · obtain ⟨_, hmono2, _, hmono4⟩ := processEntries_effect h2
      rcases processEntry_coverage h1 with hcov | hcov
      · exact Or.inl (hmono4 _ hcov)
      · exact Or.inr (hmono2 _ hcov)
    · exact processEntries_coverage h2 e he2

/-- Cumulative effect of the whole chunk loop. -/
theorem runChunks_effect {remote : List String → Option (List Entry)} {onlyDetails : Bool} :
    ∀ {cs : List (List String)} {st st' : LoopState},
      runChunks remote onlyDetails st cs = some st' →
      (∀ x ∈ st'.pdbsWithoutDetails, x ∈ st.pdbsWithoutDetails ∨
          ∃ c ∈ cs, ∃ es, remote c = some es ∧ ∃ e ∈ es, x = e.rcsb_id) ∧
      (∀ x ∈ st.pdbsWithoutDetails, x ∈ st'.pdbsWithoutDetails) ∧
      (∀ t ∈ st'.structureList, t ∈ st.structureList ∨
          ∃ c ∈ cs, ∃ es, remote c = some es ∧ ∃ e ∈ es, t.pdbid = e.rcsb_id) ∧
      (∀ x ∈ st.structureList.map Structure.pdbid,
          x ∈ st'.structureList.map Structure.pdbid)
  | [], st, st', h => by
    injection h with h
    subst h
    exact ⟨fun x hx => Or.inl hx, fun x hx => hx, fun t ht => Or.inl ht, fun x hx => hx⟩
  | c :: rest, st, st', h => by
    rw [runChunks] at h
    cases hrc : remote c with
    | none =>
      rw [hrc] at h
      obtain ⟨ih1, ih2, ih3, ih4⟩ := runChunks_effect h
      refine ⟨?_, ih2, ?_, ih4⟩
      · intro x hx
        rcases ih1 x hx with hx1 | ⟨c', hc', rest'⟩
        · exact Or.inl hx1
        · exact Or.inr ⟨c', by simp [hc'], rest'⟩
      · intro t ht
        rcases ih3 t ht with ht1 | ⟨c', hc', rest'⟩
        · exact Or.inl ht1
        · exact Or.inr ⟨c', by simp [hc'], rest'⟩
    | some es =>
      rw [hrc, Option.bind_eq_some] at h
      obtain ⟨st1, h1, h2⟩ := h
      obtain ⟨pe1, pe2, pe3, pe4⟩ := processEntries_effect h1
      obtain ⟨ih1, ih2, ih3, ih4⟩ := runChunks_effect h2
      refine ⟨?_, fun x hx => ih2 x (pe2 x hx), ?_, fun x hx => ih4 x (pe4 x hx)⟩
      · intro x hx
        rcases ih1 x hx with hx1 | ⟨c', hc', rest'⟩
        · rcases pe1 x hx1 with hx2 | ⟨e, he, hxe⟩
          · exact Or.inl hx2
          · exact Or.inr ⟨c, by simp, es, hrc, e, he, hxe⟩
        · exact Or.inr ⟨c', by simp [hc'], rest'⟩
      · intro t ht
        rcases ih3 t ht with ht1 | ⟨c', hc', rest'⟩
        · rcases pe3 t ht1 with ht2 | ⟨e, he, hte⟩
          · exact Or.inl ht2
          · exact Or.inr ⟨c, by simp, es, hrc, e, he, hte⟩
        · exact Or.inr ⟨c', by simp [hc'], rest'⟩

/-- After the chunk loop, every entry of every successfully answered
batch has its identifier recorded in the store or the exclusion list. -/
theorem runChunks_coverage {remote : List String → Option (List Entry)} {onlyDetails : Bool} :
    ∀ {cs : List (List String)} {st st' : LoopState},
      runChunks remote onlyDetails st cs = some st' →
      ∀ c ∈ cs, ∀ es, remote c = some es → ∀ e ∈ es,
        e.rcsb_id ∈ st'.structureList.map Structure.pdbid ∨
          e.rcsb_id ∈ st'.pdbsWithoutDetails
  | [], _, _, _ => by
    intro c hc
    simp at hc
  | c0 :: rest, st, st', h => by
    rw [runChunks] at h
    intro c hc es hes e he
    rcases List.mem_cons.mp hc with rfl | hc2
    · rw [hes, Option.bind_eq_some] at h
      obtain ⟨st1, h1, h2⟩ := h
      obtain ⟨_, hmono2, _, hmono4⟩ := runChunks_effect h2
      rcases processEntries_coverage h1 e he with hcov | hcov
      · exact Or.inl (hmono4 _ hcov)
      · exact Or.inr (hmono2 _ hcov)
    · cases hrc : remote c0 with
      | none =>
        rw [hrc] at h
        exact runChunks_coverage h c hc2 es hes e he
      | some es0 =>
        rw [hrc, Option.bind_eq_some] at h
        obtain ⟨st1, h1, h2⟩ := h
        exact runChunks_coverage h2 c hc2 es hes e he

/-- A chunk loop all of whose batches fail or answer with no entries
leaves the loop state untouched. -/
theorem runChunks_trivial {remote : List String → Option (List Entry)} {onlyDetails : Bool} :
    ∀ {cs : List (List String)} {st : LoopState},
      (∀ c ∈ cs, remote c = none ∨ remote c = some []) →
      runChunks remote onlyDetails st cs = some st
  | [], _, _ => rfl
  | c :: rest, st, h => by
    have htail : ∀ c' ∈ rest, remote c' = none ∨ remote c' = some [] :=
      fun c' hc' => h c' (by simp [hc'])
    rcases h c (by simp) with hc | hc <;> rw [runChunks, hc]
    · exact runChunks_trivial htail
    · show (processEntries onlyDetails st []).bind _ = some st
      rw [processEntries]
      show runChunks remote onlyDetails st rest = some st
      exact runChunks_trivial htail

/-- In a list of lists whose concatenation has no duplicates, an element
pins down the unique member list containing it. -/
theorem flatten_nodup_unique {α : Type*} {L : List (List α)} (h : L.flatten.Nodup)
    {c c' : List α} {x : α} (hc : c ∈ L) (hc' : c' ∈ L) (hx : x ∈ c) (hx' : x ∈ c') :
    c = c' := by
  induction L with
  | nil => simp at hc
  | cons d L' ih =>
    rw [List.flatten_cons, List.nodup_append] at h
    obtain ⟨hd, hL', hdisj⟩ := h
    rcases List.mem_cons.mp hc with rfl | hc2 <;> rcases List.mem_cons.mp hc' with rfl | hc2'
    · rfl
    · exact absurd (List.mem_flatten.mpr ⟨c', hc2', hx'⟩) (hdisj hx)
    · exact absurd (List.mem_flatten.mpr ⟨c, hc2, hx⟩) (hdisj hx')
    · exact ih hL' hc2 hc2'

/-! ## Claim theorems -/

/-- **C3.** For every list of identifiers and every positive batch size
`B`, the batches yielded by `chunks`, concatenated, give back exactly
the elements of the original list; the batches are pairwise disjoint
when the input has no duplicates; and every batch has size `B` except
possibly the last (all are non-empty and no larger than `B`). -/
theorem chunks_partition (lst : List String) (B : ℕ) (hB : 0 < B) :
    (chunks lst B).flatten = lst ∧
    (lst.Nodup → (chunks lst B).Pairwise List.Disjoint) ∧
    (∀ c ∈ (chunks lst B).dropLast, c.length = B) ∧
    (∀ c ∈ chunks lst B, 0 < c.length ∧ c.length ≤ B) := by
  have hB' : B ≠ 0 := by omega
  refine ⟨chunks_flatten B hB' lst, ?_, chunks_dropLast_length B hB' lst,
    fun c hc => chunks_length_le hB' hc⟩
  intro hnd
  have hj : (chunks lst B).flatten.Nodup := by
    rw [chunks_flatten B hB' lst]
    exact hnd
  exact (List.nodup_flatten.mp hj).2

/-- Witness for C3 at `lst = ["a", "b", "c"]`, `B = 2`. -/
theorem chunks_partition_witness :
    0 < 2 ∧
    ((chunks ["a", "b", "c"] 2).flatten = ["a", "b", "c"] ∧
     ((["a", "b", "c"] : List String).Nodup →
        (chunks ["a", "b", "c"] 2).Pairwise List.Disjoint) ∧
     (∀ c ∈ (chunks ["a", "b", "c"] 2).dropLast, c.length = 2) ∧
     (∀ c ∈ chunks ["a", "b", "c"] 2, 0 < c.length ∧ c.length ≤ 2)) :=
  ⟨by decide, chunks_partition ["a", "b", "c"] 2 (by decide)⟩

/-- **C2.** The record store holds at most one record per identifier, and
every insertion preserves this: under the invariant, inserting a record
removes exactly the prior record with the same identifier (if any),
leaves every record with another identifier unchanged (in place), and
appends the new record whole — full replacement, no field-level merge —
and the resulting store again satisfies the invariant. -/
theorem insertStructure_replacement (l : List Structure) (s : Structure)
    (hinv : (l.map Structure.pdbid).Nodup) :
    insertStructure l s = l.filter (fun t => t.pdbid != s.pdbid) ++ [s] ∧
    ((insertStructure l s).map Structure.pdbid).Nodup ∧
    (∀ t ∈ l, t.pdbid ≠ s.pdbid → t ∈ insertStructure l s) ∧
    (∀ t ∈ insertStructure l s, t = s ∨ (t ∈ l ∧ t.pdbid ≠ s.pdbid)) := by
  have heq := insertStructure_eq_filter l s hinv
  refine ⟨heq, insertStructure_ids_nodup l s hinv, ?_, ?_⟩
  · intro t ht hne
    rw [heq, List.mem_append, List.mem_filter]
    exact Or.inl ⟨ht, by simpa using hne⟩
  · intro t ht
    rw [heq, List.mem_append, List.mem_filter] at ht
    rcases ht with ⟨h1, h2⟩ | h1
    · exact Or.inr ⟨h1, by simpa using h2⟩
    · exact Or.inl (by simpa using h1)

/-- Witness for C2: replacing the record for `"1AAA"` in the two-record
store `[structA, structB]`. -/
theorem insertStructure_replacement_witness :
    (([structA, structB].map Structure.pdbid).Nodup) ∧
    (insertStructure [structA, structB] structA2 =
        [structA, structB].filter (fun t => t.pdbid != structA2.pdbid) ++ [structA2] ∧
     ((insertStructure [structA, structB] structA2).map Structure.pdbid).Nodup ∧
     (∀ t ∈ [structA, structB], t.pdbid ≠ structA2.pdbid →
        t ∈ insertStructure [structA, structB] structA2) ∧
     (∀ t ∈ insertStructure [structA, structB] structA2,
        t = structA2 ∨ (t ∈ [structA, structB] ∧ t.pdbid ≠ structA2.pdbid))) :=
  ⟨by decide, insertStructure_replacement [structA, structB] structA2 (by decide)⟩

/-- **C4.** The work set `fetchStructures` computes is the identifier
universe minus the union of the stored identifiers (subtracted only when
`ignoreCompletedPdbs` is true) and the excluded identifiers (subtracted
only when `ignorePdbsWithoutDetails` is true); with
`ignoreCompletedPdbs = false` the store's keys do not shrink it. -/
theorem fetchWorkSet_spec (pdbList : List String) (initStructures : List Structure)
    (initWithoutDetails : List String) (skipExcluded skipCompleted : Bool) :
    (fetchWorkSet pdbList initStructures initWithoutDetails skipExcluded skipCompleted).toFinset
      = pdbList.toFinset \
          ((if skipCompleted then (initStructures.map Structure.pdbid).toFinset else ∅) ∪
           (if skipExcluded then initWithoutDetails.toFinset else ∅)) := by
  ext x
  simp only [List.mem_toFinset, Finset.mem_sdiff, Finset.mem_union, fetchWorkSet,
    mem_workSetList, ignoredPdbList, List.mem_append]
  cases skipExcluded <;> cases skipCompleted <;> (simp; try tauto)

/-- **C7.** With `ignorePdbsWithoutDetails = true`, an identifier in the
loaded exclusion list is in none of the batches handed to the remote
catalog client. -/
theorem excluded_never_fetched (pdbList initWithoutDetails : List String)
    (initStructures : List Structure) (ignoreCompletedPdbs : Bool) (x : String)
    (hx : x ∈ initWithoutDetails) (c : List String)
    (hc : c ∈ chunks
        (fetchWorkSet pdbList initStructures initWithoutDetails true ignoreCompletedPdbs)
        CHUNK_SIZE) :
    x ∉ c := by
  intro hxc
  have hxw := mem_of_mem_chunks (n := CHUNK_SIZE) (by decide) hc hxc
  rw [fetchWorkSet, mem_workSetList] at hxw
  exact hxw.2 (by simp [ignoredPdbList, hx])

/-- Witness for C7: `"1AAA"` is excluded, the work set over
`{"1AAA", "1BBB"}` is the single batch `["1BBB"]`, and `"1AAA"` is not
in it. -/
theorem excluded_never_fetched_witness :
    "1AAA" ∈ ["1AAA"] ∧
    ["1BBB"] ∈ chunks (fetchWorkSet ["1AAA", "1BBB"] [] ["1AAA"] true true) CHUNK_SIZE ∧
    "1AAA" ∉ ["1BBB"] :=
  ⟨by decide, by decide,
    excluded_never_fetched ["1AAA", "1BBB"] ["1AAA"] [] true "1AAA" (by decide)
      ["1BBB"] (by decide)⟩

/-- **C5.** When the batch holding `x` gets a response without the
top-level `data` field (and entries of successful batches only answer
for their own batch's identifiers), the run adds `x` neither to the
record store nor to the exclusion list, and `x` is again in the work set
computed from the stores the run leaves behind. -/
theorem failed_batch_unaffected
    (remote : List String → Option (List Entry)) (pdbList : List String)
    (initStructures : List Structure) (initWithoutDetails : List String)
    (onlyDetails ignorePdbsWithoutDetails ignoreCompletedPdbs : Bool)
    (res : FetchResult) (x : String) (c : List String)
    (hrun : fetchStructures remote pdbList initStructures initWithoutDetails
        onlyDetails ignorePdbsWithoutDetails ignoreCompletedPdbs = some res)
    (hc : c ∈ chunks (fetchWorkSet pdbList initStructures initWithoutDetails
        ignorePdbsWithoutDetails ignoreCompletedPdbs) CHUNK_SIZE)
    (hxc : x ∈ c)
    (hfail : remote c = none)
    (hwf : ∀ c' es, remote c' = some es → ∀ e ∈ es, e.rcsb_id ∈ c') :
    (∀ s ∈ res.structureList, s.pdbid = x → s ∈ initStructures) ∧
    (x ∈ res.pdbsWithoutDetails → x ∈ initWithoutDetails) ∧
    x ∈ fetchWorkSet pdbList res.structureList res.pdbsWithoutDetails
        ignorePdbsWithoutDetails ignoreCompletedPdbs := by
  unfold fetchStructures at hrun
  rw [Option.map_eq_some'] at hrun
  obtain ⟨stF, hF, hres⟩ := hrun
  have e1 : res.structureList = stF.structureList := by rw [← hres]
  have e2 : res.pdbsWithoutDetails = stF.pdbsWithoutDetails := by rw [← hres]
  rw [e1, e2]
  have hCS : (CHUNK_SIZE : ℕ) ≠ 0 := by decide
  have hflat : (chunks (fetchWorkSet pdbList initStructures initWithoutDetails
      ignorePdbsWithoutDetails ignoreCompletedPdbs) CHUNK_SIZE).flatten.Nodup := by
    rw [chunks_flatten _ hCS]
    exact workSetList_nodup _ _
  have hnox : ∀ c' ∈ chunks (fetchWorkSet pdbList initStructures initWithoutDetails
      ignorePdbsWithoutDetails ignoreCompletedPdbs) CHUNK_SIZE,
      ∀ es, remote c' = some es → ∀ e ∈ es, ¬ x = e.rcsb_id := by
    intro c' hc' es hes e he hxe
    have hxc' : x ∈ c' := by
      rw [hxe]
      exact hwf c' es hes e he
    have hcc : c = c' := flatten_nodup_unique hflat hc hc' hxc hxc'
    rw [← hcc, hfail] at hes
    exact Option.noConfusion hes
  obtain ⟨re1, re2, re3, re4⟩ := runChunks_effect hF
  have p1 : ∀ s ∈ stF.structureList, s.pdbid = x → s ∈ initStructures := by
    intro s hs hspdb
    rcases re3 s hs with h1 | ⟨c', hc', es, hes, e, he, hte⟩
    · exact h1
    · exact absurd (hspdb.symm.trans hte) (hnox c' hc' es hes e he)
  have p2 : x ∈ stF.pdbsWithoutDetails → x ∈ initWithoutDetails := by
    intro hx
    rcases re1 x hx with h1 | ⟨c', hc', es, hes, e, he, hxe⟩
    · exact h1
    · exact absurd hxe (hnox c' hc' es hes e he)
  refine ⟨p1, p2, ?_⟩
  have hxw := mem_of_mem_chunks hCS hc hxc
  rw [fetchWorkSet, mem_workSetList] at hxw
  obtain ⟨hxp, hxig⟩ := hxw
  rw [fetchWorkSet, mem_workSetList]
  refine ⟨hxp, fun hxig' => hxig ?_⟩
  rw [ignoredPdbList, List.mem_append] at hxig'
  rw [ignoredPdbList, List.mem_append]
  rcases hxig' with h1 | h1
  · left
    cases ignorePdbsWithoutDetails with
    | false => simp at h1
    | true =>
      simp only [if_pos rfl] at h1 ⊢
      exact p2 h1
  · right
    cases ignoreCompletedPdbs with
    | false => simp at h1
    | true =>
      simp only [if_pos rfl] at h1 ⊢
      obtain ⟨t, ht, htx⟩ := List.mem_map.mp h1
      exact List.mem_map.mpr ⟨t, p1 t ht htx, htx⟩

/-- Witness for C5: a single always-failing batch over `{"1AAA"}`. -/
theorem failed_batch_unaffected_witness :
    (∀ s ∈ (FetchResult.mk [] []).structureList, s.pdbid = "1AAA" →
        s ∈ ([] : List Structure)) ∧
    ("1AAA" ∈ (FetchResult.mk [] []).pdbsWithoutDetails → "1AAA" ∈ ([] : List String)) ∧
    "1AAA" ∈ fetchWorkSet ["1AAA"] (FetchResult.mk [] []).structureList
        (FetchResult.mk [] []).pdbsWithoutDetails true true :=
  failed_batch_unaffected (fun _ => none) ["1AAA"] [] [] true true true ⟨[], []⟩
    "1AAA" ["1AAA"] (by decide) (by decide) (by decide) rfl
    (fun c' es h => nomatch h)

/-- **C6.** With `skipCompleted = true` and an unchanged per-identifier
remote, a second run seeded with the store and exclusion list left by a
first run reproduces the first run's record store exactly (and even the
exclusion list). -/
theorem fetch_idempotent (f : String → Option Entry) (pdbList : List String)
    (res1 : FetchResult)
    (hid : ∀ x e, f x = some e → e.rcsb_id = x)
    (h1 : fetchStructures (remoteOf f) pdbList [] [] true true true = some res1) :
    fetchStructures (remoteOf f) pdbList res1.structureList res1.pdbsWithoutDetails
        true true true = some ⟨res1.structureList, res1.pdbsWithoutDetails⟩ := by
  unfold fetchStructures at h1 ⊢
  rw [Option.map_eq_some'] at h1
  obtain ⟨stF, hF, hres⟩ := h1
  have e1 : res1.structureList = stF.structureList := by rw [← hres]
  have e2 : res1.pdbsWithoutDetails = stF.pdbsWithoutDetails := by rw [← hres]
  rw [e1, e2]
  have hCS : (CHUNK_SIZE : ℕ) ≠ 0 := by decide
  have hnone : ∀ y ∈ fetchWorkSet pdbList stF.structureList stF.pdbsWithoutDetails
      true true, f y = none := by
    intro y hy
    rw [fetchWorkSet, mem_workSetList] at hy
    obtain ⟨hyp, hyig⟩ := hy
    cases hfy : f y with
    | none => rfl
    | some e =>
      exfalso
      have hyw1 : y ∈ fetchWorkSet pdbList [] [] true true := by
        rw [fetchWorkSet, mem_workSetList]
        exact ⟨hyp, by simp [ignoredPdbList]⟩
      obtain ⟨c, hcmem, hyc⟩ := List.mem_flatten.mp
        (by rw [chunks_flatten _ hCS]; exact hyw1)
      have hescov := runChunks_coverage hF c hcmem (c.filterMap f) rfl e
        (List.mem_filterMap.mpr ⟨y, hyc, hfy⟩)
      rw [hid y e hfy] at hescov
      apply hyig
      rw [ignoredPdbList, List.mem_append]
      rcases hescov with hcov | hcov
      · right
        simpa using hcov
      · left
        simpa using hcov
  have htriv : ∀ c ∈ chunks (fetchWorkSet pdbList stF.structureList
      stF.pdbsWithoutDetails true true) CHUNK_SIZE,
      remoteOf f c = none ∨ remoteOf f c = some [] := by
    intro c hcm
    right
    have hnil : c.filterMap f = [] := by
      rw [List.filterMap_eq_nil_iff]
      intro a ha
      exact hnone a (mem_of_mem_chunks hCS hcm ha)
    simp [remoteOf, hnil]
  rw [runChunks_trivial htriv]
  rfl

/-- Witness for C6 with an empty remote over `{"1AAA"}`. -/
theorem fetch_idempotent_witness :
    fetchStructures (remoteOf (fun _ => none)) ["1AAA"] [] [] true true true
      = some ⟨[], []⟩ :=
  fetch_idempotent (fun _ => none) ["1AAA"] ⟨[], []⟩ (fun _ _ h => nomatch h)
    (by decide)

/-- **C8.** The spec's worked example: universe `{"1AAA", "1BBB"}`, null
crystal-growth for `"1AAA"`, full details for `"1BBB"` with pH `"7.0"`,
temperature `"298"`, method `"Vapor Diffusion"` and resolution list
`[1.8]`; with `onlyDetails = true` and empty initial stores the run
produces exactly one record — for `"1BBB"`, with pH 7, temperature 298
and resolution 1.8 — and the exclusion list is exactly `["1AAA"]`. -/
theorem fetch_example :
    fetchStructures remoteExample ["1AAA", "1BBB"] [] [] true true true
      = some ⟨[⟨"1BBB", none, some "pH 7.0, PEG", [], some 7, some 298,
                some "Vapor Diffusion", [], some 1.8⟩], ["1AAA"]⟩ := by
  with_unfolding_all decide

/-- **C1 (failing input).** In a single batch containing `entryFull`
(resolution list `[1.8]`) followed by `entryBadRes` (whose resolution
chain is null, so `float()` on it raises), the constructed record for
`"2CCC"` carries the PREVIOUS entry's resolution `1.8` instead of null:
the `except` branch at line 206 assigns to the misspelled `resultion`,
leaving `resolution` bound to the prior entry's value. -/
theorem resolution_stale_eval :
    ((entryBadRes.rcsb_entry_info.bind RcsbEntryInfo.resolution_combined).bind
        List.head?).bind pyFloat = none ∧
    (fetchStructures remoteStaleRes ["1BBB", "2CCC"] [] [] true true true).map
        (fun r => r.structureList.map Structure.resolution)
      = some [some 1.8, some 1.8] :=
  ⟨by decide, by with_unfolding_all decide⟩

/-- **C10.** The exclusion collection is append-only (each entry step
leaves it unchanged or appends the entry's identifier, never removing or
deduplicating), and re-fetching an already-excluded identifier with
`ignorePdbsWithoutDetails = false` makes the persisted collection hold
the same identifier twice. -/
theorem exclusion_append_only :
    (∀ (onlyDetails : Bool) (st : LoopState) (e : Entry) (st' : LoopState),
        processEntry onlyDetails st e = some st' →
        st'.pdbsWithoutDetails = st.pdbsWithoutDetails ∨
        st'.pdbsWithoutDetails = st.pdbsWithoutDetails ++ [e.rcsb_id]) ∧
    fetchStructures remoteNoGrow ["1AAA"] [] ["1AAA"] true false true
      = some ⟨[], ["1AAA", "1AAA"]⟩ ∧
    ¬ (["1AAA", "1AAA"] : List String).Nodup := by
  refine ⟨?_, by decide, by decide⟩
  intro onlyDetails st e st' h
  rcases processEntry_effect h with ⟨_, hexcl⟩ | ⟨s, _, _, hexcl⟩
  · exact Or.inr hexcl
  · exact hexcl

/-- Witness for C10's universally quantified part, at the entry with
null crystal growth. -/
theorem exclusion_append_only_witness :
    (LoopState.mk [] ["1AAA"] none).pdbsWithoutDetails
        = (LoopState.mk [] [] none).pdbsWithoutDetails ∨
    (LoopState.mk [] ["1AAA"] none).pdbsWithoutDetails
        = (LoopState.mk [] [] none).pdbsWithoutDetails ++ [entryNoGrow.rcsb_id] :=
  exclusion_append_only.1 true ⟨[], [], none⟩ entryNoGrow ⟨[], ["1AAA"], none⟩
    (by decide)

/-- **C9 counterexample.** The remote publication id `"AB1234"` does not
start with the `"PMC"` prefix, yet the stored id is `"234"`: the slice
`pmcid[3:]` at line 184 strips the first three characters
unconditionally, so the value is NOT stored unchanged as the claim
requires. -/
theorem pmcid_strip_counterexample :
    (fetchStructures remoteOddPmc ["3DDD"] [] [] true true true).map
        (fun r => r.structureList.map Structure.pmcid) = some [some "234"] ∧
    ("234" : String) ≠ "AB1234" :=
  ⟨by decide, by decide⟩

/-- **C9 (amended).** For every entry that produces a record, the stored
publication id is the remote value with its first three characters
removed unconditionally whenever the value is present and non-null (for
an id actually carrying the `"PMC"` prefix this strips exactly that
prefix); an absent or null publication id is stored as null. -/
theorem pmcid_strip_amended (onlyDetails : Bool) (st st' : LoopState) (e : Entry)
    (grows : List CrystalGrow) (g : CrystalGrow)
    (hgrow : e.exptl_crystal_grow = some grows) (hhd : grows.head? = some g)
    (hdet : g.pdbx_details.isNone = false)
    (h : processEntry onlyDetails st e = some st') :
    ∃ r : Structure, st'.structureList.getLast? = some r ∧ r.pdbid = e.rcsb_id ∧
      r.pmcid = (match e.pubmed with
        | some p =>
          match p.rcsb_pubmed_central_id with
          | some pid => some (pid.drop 3)
          | none => none
        | none => none) := by
  unfold processEntry at h
  simp only [hgrow, hhd, hdet, Bool.false_and, Bool.false_eq_true, if_false] at h
  cases hres : ((e.rcsb_entry_info.bind RcsbEntryInfo.resolution_combined).bind
      List.head?).bind pyFloat with
  | some q =>
    simp only [hres] at h
    injection h with h
    subst h
    refine ⟨_, insertStructure_getLast _ _, rfl, ?_⟩
    cases e.pubmed with
    | none => rfl
    | some p =>
      obtain ⟨pid⟩ := p
      cases pid with
      | none => rfl
      | some s => rfl
  | none =>
    simp only [hres] at h
    cases hrv : st.resolutionVar with
    | none =>
      simp only [hrv] at h
      exact absurd h (by simp)
    | some q =>
      simp only [hrv] at h
      injection h with h
      subst h
      refine ⟨_, insertStructure_getLast _ _, rfl, ?_⟩
      cases e.pubmed with
      | none => rfl
      | some p =>
        obtain ⟨pid⟩ := p
        cases pid with
        | none => rfl
        | some s => rfl

/-- Witness for the amended C9, at the entry whose publication id lacks
the prefix. -/
theorem pmcid_strip_amended_witness :
    ∃ r : Structure,
      (LoopState.mk [⟨"3DDD", some "234", some "pH 7.0, PEG", [], some 7, some 298,
          some "Vapor Diffusion", [], some 2⟩] [] (some 2)).structureList.getLast?
          = some r ∧
      r.pdbid = entryOddPmc.rcsb_id ∧
      r.pmcid = (match entryOddPmc.pubmed with
        | some p =>
          match p.rcsb_pubmed_central_id with
          | some pid => some (pid.drop 3)
          | none => none
        | none => none) :=
  pmcid_strip_amended true ⟨[], [], none⟩
    ⟨[⟨"3DDD", some "234", some "pH 7.0, PEG", [], some 7, some 298,
        some "Vapor Diffusion", [], some 2⟩], [], some 2⟩
    entryOddPmc [growFull] growFull rfl rfl rfl (by with_unfolding_all decide)

end CrystalDB
